import Mathlib

/-!
Shallow embedding of the Fama-French / Carhart dashboard pipeline
(`src/fama-french5andcarhart4-app.py`): the loader/normalizer
(`get_fama_french_safe`), the style-box mapper (the `style_map` loop and the
Momentum/Market construction), and the performance analytics
(`ann_ret`, `ann_vol`, `sharpe`, `max_dd`).  Numeric cells are embedded as
rationals (exact arithmetic standing for the floats of the source); the
CAGR/volatility/Sharpe analytics, which need real powers and square roots,
are embedded over the reals.  A Python exception that escapes to the
page-level handler is modelled as `none` / `Option.none`.
-/

set_option autoImplicit false

namespace FF

/-- A year-month period, the parse of a `YYYYMM` token
(`pd.to_datetime(..., format="%Y%m")`). -/
structure Period where
  year : Nat
  month : Nat
  deriving DecidableEq, Repr

/-- Split a line of text at commas, the field splitting done by
`pd.read_csv` on a comma-separated file. -/
def splitAux (sep : Char) : List Char → List Char → List (List Char)
  | [], acc => [acc.reverse]
  | c :: rest, acc =>
      if c = sep then acc.reverse :: splitAux sep rest []
      else splitAux sep rest (c :: acc)

/-- Fields of one CSV line. -/
def splitFields (l : String) : List String :=
  (splitAux ',' l.data []).map (fun cs => ⟨cs⟩)

/-- Numeric value of a digit string (most significant digit first). -/
def digitsVal (cs : List Char) : Nat :=
  cs.foldl (fun a c => a * 10 + (c.toNat - 48)) 0

/-- Parse of a 6-character `YYYYMM` index token by
`pd.to_datetime(tok, format="%Y%m")`: all six characters must be digits and
the month must lie in 1..12, otherwise the conversion raises (`none`). -/
def parsePeriod (tok : String) : Option Period :=
  let cs := tok.data
  if cs.length = 6 ∧ cs.all Char.isDigit then
    let m := digitsVal (cs.drop 4)
    if 1 ≤ m ∧ m ≤ 12 then some ⟨digitsVal (cs.take 4), m⟩ else none
  else none

/-- Parse of an unsigned decimal numeral (digits, optionally followed by a
point and digits), the value `float(cell)` gives on the cells the pipeline
actually feeds to `astype(float)`. -/
def parseUnsignedChars (cs : List Char) : Option ℚ :=
  let ip := cs.takeWhile (fun c => c ≠ '.')
  match cs.dropWhile (fun c => c ≠ '.') with
  | [] =>
      if ip ≠ [] ∧ ip.all Char.isDigit then some (digitsVal ip : ℚ) else none
  | _ :: fp =>
      if ip.all Char.isDigit ∧ fp ≠ [] ∧ fp.all Char.isDigit then
        some ((digitsVal ip : ℚ) + (digitsVal fp : ℚ) / (10 : ℚ) ^ fp.length)
      else none

/-- Parse of a (possibly negative) decimal numeral, `float(cell)`. -/
def parseDec (s : String) : Option ℚ :=
  match s.data with
  | '-' :: rest => (parseUnsignedChars rest).map Neg.neg
  | cs => parseUnsignedChars cs

/-- The table `pd.read_csv(..., index_col=0)` returns before cleaning:
column names from the header line, and per row the raw index token
(first field) together with the remaining raw cells. -/
structure RawTab where
  columns : List String
  rows : List (String × List String)
  deriving DecidableEq, Repr

/-- A cleaned numeric table: stripped of non-data rows, index parsed into
periods, cells scaled to decimal returns. -/
structure Tab where
  columns : List String
  rows : List (Period × List ℚ)
  deriving DecidableEq, Repr

/-- Embedding of `pd.read_csv(file, skiprows=k, index_col=0)` on a file
given as its list of text lines: drop the first `k` lines, take the next
line as the header (its first field is the index name, the rest are the
column names), and read every following line as a data row whose first
field is the index token.  With no line left for the header the call
raises (`none`). -/
def read_csv (skiprows : Nat) (lines : List String) : Option RawTab :=
  match lines.drop skiprows with
  | [] => none
  | header :: rest =>
      some ⟨(splitFields header).drop 1,
            rest.map (fun l =>
              match splitFields l with
              | [] => ("", [])
              | tok :: vals => (tok, vals))⟩

/-- Conversion of the whole index by `pd.to_datetime(...)`: every token
must parse or the call raises (`none`). -/
def parseIndex : List String → Option (List Period)
  | [] => some []
  | tok :: rest =>
      (parsePeriod tok).bind fun p => (parseIndex rest).map fun ps => p :: ps

/-- Conversion of one row's cells by `df.astype(float)`. -/
def parseCells : List String → Option (List ℚ)
  | [] => some []
  | c :: rest =>
      (parseDec c).bind fun q => (parseCells rest).map fun qs => q :: qs

/-- Conversion of all rows' cells by `df.astype(float)`. -/
def parseCellsAll : List (List String) → Option (List (List ℚ))
  | [] => some []
  | r :: rest =>
      (parseCells r).bind fun qs => (parseCellsAll rest).map fun qss => qs :: qss

/-- Embedding of the cleaning step of `get_fama_french_safe`
(lines 126-128 of the source):
`df = df[df.index.astype(str).str.len() == 6]` keeps exactly the rows whose
index token has 6 characters, then
`df.index = pd.to_datetime(df.index.astype(str), format="%Y%m")` parses all
remaining tokens (raising on any failure), then `df.astype(float) / 100`
parses all cells and scales them.  A raised exception is `none`. -/
def cleanTab (t : RawTab) : Option Tab :=
  let kept := t.rows.filter (fun r => r.1.length = 6)
  (parseIndex (kept.map Prod.fst)).bind fun idx =>
    (parseCellsAll (kept.map Prod.snd)).map fun vals =>
      ⟨t.columns, idx.zip (vals.map (fun row => row.map (fun q => q / 100)))⟩

/-- Outcome of one `requests.get` of a factor zip: a network-layer
exception, or an HTTP response with a status code and the lines of the
single CSV file contained in the returned archive. -/
inductive Net where
  | err : Net
  | resp (status : Nat) (lines : List String) : Net

/-- Embedding of one iteration of the download loop of
`get_fama_french_safe` (lines 114-129): fail on a network error or a
non-200 status; otherwise parse with `skiprows=3`, falling back to a parse
with no skipped rows if that raises, then clean.  Any raised exception
makes the iteration fail (`none`). -/
def loadOne : Net → Option Tab
  | Net.err => none
  | Net.resp status lines =>
      if status = 200 then
        match read_csv 3 lines with
        | some rt => cleanTab rt
        | none =>
            match read_csv 0 lines with
            | some rt => cleanTab rt
            | none => none
      else none

/-- Embedding of `get_fama_french_safe` (lines 98-133): the three targets
`"25"`, `"mom"`, `"ff5"` are processed in order; the first failure makes
the function return `(None, None, None, False)`, and only if all three
succeed does it return the three tables with the real-data flag `True`. -/
def get_fama_french_safe (n25 nmom nff5 : Net) :
    Option Tab × Option Tab × Option Tab × Bool :=
  match loadOne n25 with
  | none => (none, none, none, false)
  | some t25 =>
      match loadOne nmom with
      | none => (none, none, none, false)
      | some tmom =>
          match loadOne nff5 with
          | none => (none, none, none, false)
          | some tff5 => (some t25, some tmom, some tff5, true)

/-- Python's `str.strip()`: drop leading and trailing whitespace. -/
def trimStr (s : String) : String :=
  ⟨(((s.data.dropWhile Char.isWhitespace).reverse).dropWhile Char.isWhitespace).reverse⟩

/-- `df.columns = [c.strip() for c in df.columns]` (lines 170-172). -/
def stripCols (t : Tab) : Tab :=
  ⟨t.columns.map trimStr, t.rows⟩

/-- Positional boolean-mask selection `df[mask]` with a numpy boolean
array: keeps the rows at the positions where the mask is `true`; raises
(`none`) when the mask's length differs from the table's row count. -/
def applyMask (mask : List Bool) (t : Tab) : Option Tab :=
  if t.rows.length = mask.length then
    some ⟨t.columns,
          (t.rows.zip mask).filterMap (fun rb => if rb.2 then some rb.1 else none)⟩
  else none

/-- Membership of a name in a column list, `c in df.columns`. -/
def hasCol : List String → String → Bool
  | [], _ => false
  | a :: l, c => a == c || hasCol l c

/-- Position of a column name in the column list (first match). -/
def idxOf : List String → String → Option Nat
  | [], _ => none
  | a :: l, c => if a = c then some 0 else (idxOf l c).map (fun j => j + 1)

/-- The first row carrying period `p` (pandas index alignment). -/
def findRow : List (Period × List ℚ) → Period → Option (Period × List ℚ)
  | [], _ => none
  | r :: l, p => if r.1 = p then some r else findRow l p

/-- The last element of a column list, `columns[-1]`: `none` (an
`IndexError`) when the list is empty. -/
def lastOf : List String → Option String
  | [] => none
  | [a] => some a
  | _ :: b :: l => lastOf (b :: l)

/-- The value of column `c` of table `t` at period `p`, the index-aligned
cell `df[c][p]`: `none` when the period is absent (a NaN after alignment)
or the column is absent. -/
def lookup (t : Tab) (c : String) (p : Period) : Option ℚ :=
  match idxOf t.columns c with
  | some j => (findRow t.rows p).bind (fun r => r.2.get? j)
  | none => none

/-- The value of the `j`-th column of `t` at period `p` (`df.iloc[:, j]`
read at index label `p`). -/
def colAt (t : Tab) (j : Nat) (p : Period) : Option ℚ :=
  (findRow t.rows p).bind (fun r => r.2.get? j)

/-- The frame `df_final` under construction: its index and, per assigned
label, the index-aligned values of that series. -/
structure Frame where
  index : List Period
  cols : List (String × List (Option ℚ))
  deriving DecidableEq, Repr

/-- `df_final[name] = series`: append the column, with the series evaluated
at every period of the frame's index (pandas index alignment). -/
def setCol (f : Frame) (name : String) (g : Period → Option ℚ) : Frame :=
  ⟨f.index, f.cols ++ [(name, f.index.map g)]⟩

/-- The `style_map` dict of the source (lines 177-187). -/
def style_map : List (String × List String) :=
  [("Large Growth", ["BIG LoBM", "BIG Lo"]),
   ("Large Blend", ["BIG BM2", "BIG 2", "BIG 3"]),
   ("Large Value", ["BIG HiBM", "BIG Hi"]),
   ("Mid Growth", ["ME3 LoBM", "ME3 Lo"]),
   ("Mid Blend", ["ME3 BM3", "ME3 3"]),
   ("Mid Value", ["ME3 HiBM", "ME3 Hi"]),
   ("Small Growth", ["SMALL LoBM", "SMALL Lo"]),
   ("Small Blend", ["SMALL BM3", "SMALL 3"]),
   ("Small Value", ["SMALL HiBM", "SMALL Hi"])]

/-- The first candidate name that is present in the table's columns
(the inner `for pname in possible_names` loop, lines 191-195). -/
def firstPresent : List String → List String → Option String
  | [], _ => none
  | c :: rest, cols => if hasCol cols c then some c else firstPresent rest cols

/-- One pass of the `style_map` loop body (lines 189-198) for one label:
the first candidate name present in `df_25.columns` gives that column;
with no candidate present, the fallback `df_final[ui_name] = df_25.iloc[:, 0]`
silently substitutes the table's first column, raising (`none`) only when
the table has no column at all. -/
def pickStyle (t : Tab) (cands : List String) : Option (Period → Option ℚ) :=
  match firstPresent cands t.columns with
  | some c => some (lookup t c)
  | none => if t.columns.length = 0 then none else some (colAt t 0)

/-- The whole `style_map` loop: assign the nine style columns in order. -/
def mapStyles (t25 : Tab) (f0 : Frame) : Option Frame :=
  style_map.foldlM (fun f lc => (pickStyle t25 lc.2).map (fun g => setCol f lc.1 g)) f0

/-- `mom_col = "Hi PRIOR" if "Hi PRIOR" in df_mom.columns else
df_mom.columns[-1]` (line 201); `columns[-1]` of a table without columns
raises (`none`). -/
def momSel (t : Tab) : Option String :=
  if hasCol t.columns "Hi PRIOR" then some "Hi PRIOR" else lastOf t.columns

/-- `mkt_col = "Mkt-RF" if "Mkt-RF" in df_ff5.columns else
df_ff5.columns[0]` (line 204). -/
def mktSel (t : Tab) : Option String :=
  if hasCol t.columns "Mkt-RF" then some "Mkt-RF" else t.columns.head?

/-- `rf_col = "RF" if "RF" in df_ff5.columns else df_ff5.columns[-1]`
(line 205). -/
def rfSel (t : Tab) : Option String :=
  if hasCol t.columns "RF" then some "RF" else lastOf t.columns

/-- `df_ff5[mkt_col] + df_ff5[rf_col]` (line 206): the index-aligned sum,
missing (NaN) where either operand is missing. -/
def marketSeries (t : Tab) (kc rc : String) (p : Period) : Option ℚ :=
  match lookup t kc p, lookup t rc p with
  | some x, some y => some (x + y)
  | _, _ => none

/-- Embedding of the construction of `df_final` (lines 174-206):
`df_final = pd.DataFrame(index=df_25.index)`, the `style_map` loop, then
`Momentum` from the selected momentum column of `df_mom` and `Market` as
the sum of the selected market and risk-free columns of `df_ff5`. -/
def buildFinal (t25 tmom tff5 : Tab) : Option Frame :=
  (mapStyles t25 ⟨t25.rows.map Prod.fst, []⟩).bind fun f =>
    (momSel tmom).bind fun mc =>
      (mktSel tff5).bind fun kc =>
        (rfSel tff5).bind fun rc =>
          some (setCol (setCol f "Momentum" (lookup tmom mc)) "Market"
            (marketSeries tff5 kc rc))

/-- Embedding of the data-processing block (lines 164-206): the start-year
mask is computed from `df_25.index.year >= start_year` and applied
positionally to all three tables, the column names are stripped, and
`df_final` is built. -/
def fullPipeline (startYear : Nat) (t25 tmom tff5 : Tab) : Option Frame :=
  let mask := t25.rows.map (fun r => decide (startYear ≤ r.1.year))
  (applyMask mask t25).bind fun a =>
    (applyMask mask tmom).bind fun b =>
      (applyMask mask tff5).bind fun c =>
        buildFinal (stripCols a) (stripCols b) (stripCols c)

/-- The eleven canonical labels of the final frame, in construction
order. -/
def canonicalLabels : List String :=
  style_map.map Prod.fst ++ ["Momentum", "Market"]

/-! ### Performance analytics (source lines 210-216)

CAGR, volatility and Sharpe need a real power and a square root, so they
are embedded over `ℝ`; the max-drawdown line uses field operations and
running max/min over the wealth path, embedded over `ℚ` except for its
division, whose IEEE behaviour at a zero divisor (NaN at `0/0`, signed
infinity otherwise) is modelled explicitly by `FVal`, since pandas `.div`
and `.min()` propagate and skip NaN respectively. -/

/-- `tot_ret = (1 + s).prod()` (line 212). -/
noncomputable def tot_ret (s : List ℝ) : ℝ :=
  (s.map (fun r => 1 + r)).prod

/-- `ann_ret = (tot_ret ** (12/len(s))) - 1` (line 213): with
`len(s) = 0` the exponent `12/len(s)` raises `ZeroDivisionError`
(`none`). -/
noncomputable def ann_ret (s : List ℝ) : Option ℝ :=
  if s.length = 0 then none
  else some (tot_ret s ^ ((12 : ℝ) / (s.length : ℝ)) - 1)

/-- The mean of a series, `s.mean()`. -/
noncomputable def seriesMean (s : List ℝ) : ℝ :=
  s.sum / (s.length : ℝ)

/-- `s.std()`: the sample standard deviation with one delta degree of
freedom, `sqrt(sum((x - mean)^2) / (n - 1))`. -/
noncomputable def seriesStd (s : List ℝ) : ℝ :=
  Real.sqrt ((s.map (fun x => (x - seriesMean s) ^ 2)).sum / ((s.length : ℝ) - 1))

/-- `ann_vol = s.std() * np.sqrt(12)` (line 214). -/
noncomputable def ann_vol (s : List ℝ) : ℝ :=
  seriesStd s * Real.sqrt 12

/-- `sharpe = ann_ret / ann_vol if ann_vol > 0 else 0` (line 215),
evaluated after `ann_ret`, whose `ZeroDivisionError` propagates. -/
noncomputable def sharpe (s : List ℝ) : Option ℝ :=
  (ann_ret s).map (fun a => if 0 < ann_vol s then a / ann_vol s else 0)

/-- `(s + 1).cumprod()` with the running product as accumulator. -/
def cumprodAux (acc : ℚ) : List ℚ → List ℚ
  | [] => []
  | a :: l => (acc * a) :: cumprodAux (acc * a) l

/-- `l.cumprod()`: the list of prefix products. -/
def cumprod (l : List ℚ) : List ℚ :=
  cumprodAux 1 l

/-- `l.cummax()` after its first element, with the running max as
accumulator. -/
def cummaxAux (m : ℚ) : List ℚ → List ℚ
  | [] => []
  | a :: l => max m a :: cummaxAux (max m a) l

/-- `l.cummax()`: the list of running maxima. -/
def cummax : List ℚ → List ℚ
  | [] => []
  | a :: l => a :: cummaxAux a l

/-- A floating-point value as the drawdown arithmetic can produce it:
NaN, a signed infinity (`inf true` is +∞, `inf false` is −∞), or a finite
number (embedded exactly as a rational). -/
inductive FVal where
  | nan : FVal
  | inf : Bool → FVal
  | fin : ℚ → FVal
  deriving DecidableEq, Repr

/-- pandas `.div` on finite operands, with IEEE semantics for a zero
divisor: `0/0` is NaN and `x/0` with `x ≠ 0` is a signed infinity. -/
def fdiv (x m : ℚ) : FVal :=
  if m = 0 then
    if x = 0 then FVal.nan
    else if 0 < x then FVal.inf true else FVal.inf false
  else FVal.fin (x / m)

/-- `.sub(1)` on a float value: NaN and the infinities absorb it. -/
def fsub1 : FVal → FVal
  | FVal.nan => FVal.nan
  | FVal.inf b => FVal.inf b
  | FVal.fin q => FVal.fin (q - 1)

/-- The binary minimum underlying pandas `.min()` (skipna): NaN is
ignored, −∞ is smallest, +∞ largest, finite values compare as numbers. -/
def fmin : FVal → FVal → FVal
  | FVal.nan, v => v
  | v, FVal.nan => v
  | FVal.inf false, _ => FVal.inf false
  | _, FVal.inf false => FVal.inf false
  | FVal.inf true, v => v
  | v, FVal.inf true => v
  | FVal.fin a, FVal.fin b => FVal.fin (min a b)

/-- `l.min()` over a float series: the minimum of the non-NaN entries,
NaN when the series is empty or all-NaN (pandas skips NaN). -/
def seriesMinF (l : List FVal) : FVal :=
  l.foldl fmin FVal.nan

/-- `max_dd = (s + 1).cumprod().div((s + 1).cumprod().cummax()).sub(1).min()`
(line 216).  The division is the IEEE one: when the running max is 0 (a
wealth path that hits 0, i.e. some return is exactly −1) the entry is NaN,
and `.min()` skips NaN entries, returning NaN only when every entry is. -/
def max_dd (s : List ℚ) : FVal :=
  let c := cumprod (s.map (fun r => r + 1))
  seriesMinF (List.zipWith (fun x m => fsub1 (fdiv x m)) c (cummax c))

/-! ### Definitions taken from the spec's words, for comparison

Each of the following `spec_*` definitions follows the specification's
sentence it is named after, not the source; the theorems compare them with
the source-derived definitions above. -/

/-- Modelled from the spec: a line "containing any of the supplied keywords
AND a field separator" — the line has at least two comma-separated fields
and one of its fields is a keyword. -/
def headerLine (keywords : List String) (l : String) : Bool :=
  decide (2 ≤ (splitFields l).length) && keywords.any (fun k => hasCol (splitFields l) k)

/-- Modelled from the spec: "the first line containing any of the supplied
keywords AND a field separator is the header row" — the index of that line,
`none` (`HeaderNotFound`) when no line qualifies. -/
def spec_headerIdx (keywords : List String) : List String → Option Nat
  | [] => none
  | l :: rest =>
      if headerLine keywords l then some 0
      else (spec_headerIdx keywords rest).map (fun i => i + 1)

/-- Modelled from the spec: "a data row is valid only if its index token,
once stripped, is exactly 6 characters and entirely numeric". -/
def spec_validRow (tok : String) : Bool :=
  (trimStr tok).length = 6 && (trimStr tok).data.all Char.isDigit

/-- Modelled from the spec: "the working index is the intersection of all
table indices" — the periods of the first table also present in the other
two. -/
def spec_commonIndex (t25 tmom tff5 : Tab) : List Period :=
  (t25.rows.map Prod.fst).filter (fun p =>
    (tmom.rows.map Prod.fst).contains p && (tff5.rows.map Prod.fst).contains p)

/-- Modelled from the spec: "Total return: product over all periods of
(1 + r) − 1". -/
noncomputable def spec_totalReturn (s : List ℝ) : ℝ :=
  (s.map (fun r => 1 + r)).prod - 1

/-- Modelled from the spec: "CAGR: (1 + total_return) raised to
(12 / number_of_periods), minus 1" (for a series with at least one
period). -/
noncomputable def spec_cagr (s : List ℝ) : ℝ :=
  (1 + spec_totalReturn s) ^ ((12 : ℝ) / (s.length : ℝ)) - 1

/-- Modelled from the spec: "Sharpe ratio: CAGR divided by annualized
volatility; defined as 0 when volatility is 0". -/
noncomputable def spec_sharpe (cagr vol : ℝ) : ℝ :=
  if vol = 0 then 0 else cagr / vol

/-! ### Concrete fixtures for witnesses and counterexamples -/

/-- A period used by the concrete tables. -/
def p0 : Period := ⟨2000, 1⟩

/-- The spec's end-to-end loader scenario: a header preceded by three lines
of free text, then one data row. -/
def linesOK : List String :=
  ["This file was created from CRSP data", "Missing data are indicated by -99",
   "more free text", "Date,Mkt-RF,SMB", "192701,5.0,-2.0"]

/-- The same table with only two lines of free text before the header. -/
def linesShift : List String :=
  ["This file was created from CRSP data", "free text",
   "Date,Mkt-RF,SMB", "192701,5.0,-2.0"]

/-- A raw table whose second row carries the 6-character non-numeric index
token `"Annual"`. -/
def rawAnnual : RawTab :=
  ⟨["A"], [("192701", ["5.0"]), ("Annual", ["1.0"])]⟩

/-- `rawAnnual` without the non-numeric row. -/
def rawGood : RawTab :=
  ⟨["A"], [("192701", ["5.0"])]⟩

/-- A 25-portfolio table with a single data column and periods 1927-01 and
1927-02. -/
def T1x25 : Tab :=
  ⟨["X"], [(⟨1927, 1⟩, [1]), (⟨1927, 2⟩, [2])]⟩

/-- A momentum table over periods 1927-02 and 1927-03: same row count as
`T1x25` but a different period set. -/
def T1mom : Tab :=
  ⟨["M"], [(⟨1927, 2⟩, [3]), (⟨1927, 3⟩, [4])]⟩

/-- A 5-factor table over periods 1927-02 and 1927-03. -/
def T1ff5 : Tab :=
  ⟨["F", "G"], [(⟨1927, 2⟩, [5, 6]), (⟨1927, 3⟩, [7, 8])]⟩

/-- A one-column 25-portfolio table at `p0`. -/
def T2x25 : Tab :=
  ⟨["SMALL LoBM"], [(p0, [1])]⟩

/-- A momentum table without any `"Hi PRIOR"` column. -/
def T2mom : Tab :=
  ⟨["M"], [(p0, [7])]⟩

/-- A 5-factor table without `"Mkt-RF"` and without `"RF"`. -/
def T2ff5 : Tab :=
  ⟨["A", "B"], [(p0, [2, 5])]⟩

/-- A 25-portfolio table whose first column carries the genuine
`"BIG LoBM"` candidate. -/
def T3A : Tab :=
  ⟨["BIG LoBM", "Y"], [(p0, [9, 8])]⟩

/-- The same values with the first column renamed so that no candidate of
any style label is present. -/
def T3B : Tab :=
  ⟨["X", "Y"], [(p0, [9, 8])]⟩

/-- A momentum table with the genuine `"Hi PRIOR"` column. -/
def T3mom : Tab :=
  ⟨["Hi PRIOR"], [(p0, [1])]⟩

/-- A 5-factor table with the genuine `"Mkt-RF"` and `"RF"` columns. -/
def T3ff5 : Tab :=
  ⟨["Mkt-RF", "RF"], [(p0, [1, 1])]⟩

/-- A 25-portfolio table holding all nine primary style candidates, with
no row. -/
def T10x25 : Tab :=
  ⟨["SMALL LoBM", "SMALL BM3", "SMALL HiBM", "ME3 LoBM", "ME3 BM3",
    "ME3 HiBM", "BIG LoBM", "BIG BM2", "BIG HiBM"], []⟩

/-- A momentum table with the `"Hi PRIOR"` column and no row. -/
def T10mom : Tab :=
  ⟨["Hi PRIOR"], []⟩

/-- A 5-factor table with the `"Mkt-RF"` and `"RF"` columns and no row. -/
def T10ff5 : Tab :=
  ⟨["Mkt-RF", "RF"], []⟩

/-- The frame the mapper produces from `T10x25`, `T10mom`, `T10ff5`: all
eleven labels, no row. -/
def F10 : Frame :=
  ⟨[], [("Large Growth", []), ("Large Blend", []), ("Large Value", []),
        ("Mid Growth", []), ("Mid Blend", []), ("Mid Value", []),
        ("Small Growth", []), ("Small Blend", []), ("Small Value", []),
        ("Momentum", []), ("Market", [])]⟩

/-- The spec's analytics scenario: twelve monthly returns of 1%. -/
noncomputable def sc12 : List ℝ :=
  List.replicate 12 (1 / 100)

/-- The frame the pipeline produces from `T1x25`, `T1mom`, `T1ff5` with
start year 1900: the index is `T1x25`'s, and the Momentum and Market
series are missing at 1927-01. -/
def F1 : Frame :=
  ⟨[⟨1927, 1⟩, ⟨1927, 2⟩],
   [("Large Growth", [some 1, some 2]), ("Large Blend", [some 1, some 2]),
    ("Large Value", [some 1, some 2]), ("Mid Growth", [some 1, some 2]),
    ("Mid Blend", [some 1, some 2]), ("Mid Value", [some 1, some 2]),
    ("Small Growth", [some 1, some 2]), ("Small Blend", [some 1, some 2]),
    ("Small Value", [some 1, some 2]),
    ("Momentum", [none, some 3]), ("Market", [none, some 11])]⟩

/-- The frame the mapper produces from `T2x25`, `T2mom`, `T2ff5`: Momentum
from the last momentum column, Market as the sum of the first and last
5-factor columns. -/
def F2 : Frame :=
  ⟨[p0],
   [("Large Growth", [some 1]), ("Large Blend", [some 1]), ("Large Value", [some 1]),
    ("Mid Growth", [some 1]), ("Mid Blend", [some 1]), ("Mid Value", [some 1]),
    ("Small Growth", [some 1]), ("Small Blend", [some 1]), ("Small Value", [some 1]),
    ("Momentum", [some 7]), ("Market", [some 7])]⟩

/-- The frame the mapper produces both from `T3A` (candidate present) and
from `T3B` (no candidate present anywhere). -/
def F3 : Frame :=
  ⟨[p0],
   [("Large Growth", [some 9]), ("Large Blend", [some 9]), ("Large Value", [some 9]),
    ("Mid Growth", [some 9]), ("Mid Blend", [some 9]), ("Mid Value", [some 9]),
    ("Small Growth", [some 9]), ("Small Blend", [some 9]), ("Small Value", [some 9]),
    ("Momentum", [some 1]), ("Market", [some 2])]⟩

/-! ### Helper lemmas -/

theorem setCol_index (f : Frame) (n : String) (g : Period → Option ℚ) :
    (setCol f n g).index = f.index := rfl

theorem setCol_names (f : Frame) (n : String) (g : Period → Option ℚ) :
    (setCol f n g).cols.map Prod.fst = f.cols.map Prod.fst ++ [n] := by
  simp [setCol]

theorem foldStyles_some (t : Tab) :
    ∀ (L : List (String × List String)) (f0 f : Frame),
      L.foldlM (fun f lc => (pickStyle t lc.2).map (fun g => setCol f lc.1 g)) f0 = some f →
      f.index = f0.index ∧
        f.cols.map Prod.fst = f0.cols.map Prod.fst ++ L.map Prod.fst := by
  intro L
  induction L with
  | nil =>
      intro f0 f h
      simp only [List.foldlM_nil, pure, Option.some.injEq] at h
      subst h
      simp
  | cons a L ih =>
      intro f0 f h
      rw [List.foldlM_cons] at h
      cases hp : pickStyle t a.2 with
      | none => rw [hp] at h; simp at h
      | some g =>
          rw [hp] at h
          simp only [Option.map_some', Option.some_bind] at h
          obtain ⟨h1, h2⟩ := ih _ _ h
          refine ⟨by rw [h1]; rfl, ?_⟩
          rw [h2, setCol_names]
          simp

theorem firstPresent_nil (cands : List String) : firstPresent cands [] = none := by
  induction cands with
  | nil => rfl
  | cons c rest ih => simp [firstPresent, hasCol, ih]

theorem pickStyle_none_iff (t : Tab) (cands : List String) :
    pickStyle t cands = none ↔ t.columns = [] := by
  unfold pickStyle
  cases hf : firstPresent cands t.columns with
  | some c =>
      simp only [reduceCtorEq, false_iff]
      intro hc
      rw [hc, firstPresent_nil] at hf
      exact Option.noConfusion hf
  | none =>
      by_cases hl : t.columns.length = 0
      · simp [hl, List.length_eq_zero.mp hl]
      · simp only [if_neg hl, reduceCtorEq, false_iff]
        intro hc
        exact hl (by rw [hc]; rfl)

theorem foldStyles_isSome (t : Tab) (hne : t.columns ≠ []) :
    ∀ (L : List (String × List String)) (f0 : Frame),
      ∃ f, L.foldlM (fun f lc => (pickStyle t lc.2).map (fun g => setCol f lc.1 g)) f0
        = some f := by
  intro L
  induction L with
  | nil => intro f0; exact ⟨f0, rfl⟩
  | cons a L ih =>
      intro f0
      cases hp : pickStyle t a.2 with
      | none => exact absurd ((pickStyle_none_iff t a.2).mp hp) hne
      | some g =>
          obtain ⟨f, hf⟩ := ih (setCol f0 a.1 g)
          exact ⟨f, by rw [List.foldlM_cons, hp]; simpa using hf⟩

theorem buildFinal_parts (a b c : Tab) (f : Frame) (h : buildFinal a b c = some f) :
    f.index = a.rows.map Prod.fst ∧ f.cols.map Prod.fst = canonicalLabels := by
  unfold buildFinal at h
  simp only [Option.bind_eq_some, Option.some.injEq] at h
  obtain ⟨f1, hf1, mc, _, kc, _, rc, _, hf⟩ := h
  obtain ⟨hidx, hnames⟩ := foldStyles_some a _ _ _ hf1
  subst hf
  constructor
  · simpa [setCol] using hidx
  · rw [setCol_names, setCol_names, hnames]
    simp [canonicalLabels]

theorem filterMask {α : Type} (p : α → Bool) (l : List α) :
    (l.zip (l.map p)).filterMap (fun rb => if rb.2 then some rb.1 else none)
      = l.filter p := by
  induction l with
  | nil => simp
  | cons a l ih =>
      cases h : p a <;> simp [List.filter_cons, h, ih]

theorem applyMask_self (p : Period × List ℚ → Bool) (t : Tab) :
    applyMask (t.rows.map p) t = some ⟨t.columns, t.rows.filter p⟩ := by
  unfold applyMask
  rw [if_pos (by simp)]
  rw [filterMask]

/-! ### Claims -/

/-- C9.  The remote loader is all-or-nothing: either all three downloads
succeed and it returns the three tables with the real-data flag `true`,
or some download fails and it returns `(None, None, None, False)`; it
never returns a partial subset of real tables. -/
theorem C9_loader_all_or_nothing (a b c : Net) :
    (∃ x y z, loadOne a = some x ∧ loadOne b = some y ∧ loadOne c = some z ∧
        get_fama_french_safe a b c = (some x, some y, some z, true)) ∨
      ((loadOne a = none ∨ loadOne b = none ∨ loadOne c = none) ∧
        get_fama_french_safe a b c = (none, none, none, false)) := by
  cases h1 : loadOne a <;> cases h2 : loadOne b <;> cases h3 : loadOne c <;>
    simp [get_fama_french_safe, h1, h2, h3]

/-- C10.  Whenever the mapping stage completes without error, the final
frame has a column for each of the eleven canonical labels (the nine
style-box cells, Momentum and Market), whatever the input columns were. -/
theorem C10_all_labels_present (t25 tmom tff5 : Tab) (f : Frame)
    (h : buildFinal t25 tmom tff5 = some f) :
    f.cols.map Prod.fst = canonicalLabels :=
  (buildFinal_parts t25 tmom tff5 f h).2

/-- C10 witness: a concrete successful run of the mapper carries all
eleven labels. -/
theorem C10_witness : F10.cols.map Prod.fst = canonicalLabels :=
  C10_all_labels_present T10x25 T10mom T10ff5 F10 (by decide)

theorem lastOf_isSome (l : List String) (h : l ≠ []) : ∃ c, lastOf l = some c := by
  induction l with
  | nil => exact absurd rfl h
  | cons a l ih =>
      cases l with
      | nil => exact ⟨a, rfl⟩
      | cons b l2 => exact ih (List.cons_ne_nil b l2)

theorem momSel_isSome (t : Tab) (h : t.columns ≠ []) : ∃ c, momSel t = some c := by
  unfold momSel
  by_cases hc : hasCol t.columns "Hi PRIOR"
  · exact ⟨_, by rw [if_pos hc]⟩
  · rw [if_neg hc]; exact lastOf_isSome _ h

theorem mktSel_isSome (t : Tab) (h : t.columns ≠ []) : ∃ c, mktSel t = some c := by
  unfold mktSel
  by_cases hc : hasCol t.columns "Mkt-RF"
  · exact ⟨_, by rw [if_pos hc]⟩
  · rw [if_neg hc]
    cases hl : t.columns with
    | nil => exact absurd hl h
    | cons a l => exact ⟨a, rfl⟩

theorem rfSel_isSome (t : Tab) (h : t.columns ≠ []) : ∃ c, rfSel t = some c := by
  unfold rfSel
  by_cases hc : hasCol t.columns "RF"
  · exact ⟨_, by rw [if_pos hc]⟩
  · rw [if_neg hc]; exact lastOf_isSome _ h

theorem mapStyles_isSome (t : Tab) (h : t.columns ≠ []) (f0 : Frame) :
    ∃ f, mapStyles t f0 = some f :=
  foldStyles_isSome t h style_map f0

theorem mapStyles_none (t : Tab) (h : t.columns = []) (f0 : Frame) :
    mapStyles t f0 = none := by
  unfold mapStyles style_map
  rw [List.foldlM_cons, (pickStyle_none_iff t ["BIG LoBM", "BIG Lo"]).mpr h]
  rfl

/-- C2 (amended).  The mapper never fails on a missing column name: the
Momentum, Market and risk-free constituents silently fall back to the
last/first/last column, and `buildFinal` fails only when one of the three
tables has no columns at all. -/
theorem C2_failure_only_without_columns (t25 tmom tff5 : Tab) :
    buildFinal t25 tmom tff5 = none ↔
      (t25.columns = [] ∨ tmom.columns = [] ∨ tff5.columns = []) := by
  constructor
  · intro h
    by_contra hc
    push_neg at hc
    obtain ⟨h1, h2, h3⟩ := hc
    obtain ⟨f1, hf1⟩ := mapStyles_isSome t25 h1 ⟨t25.rows.map Prod.fst, []⟩
    obtain ⟨mc, hmc⟩ := momSel_isSome tmom h2
    obtain ⟨kc, hkc⟩ := mktSel_isSome tff5 h3
    obtain ⟨rc, hrc⟩ := rfSel_isSome tff5 h3
    rw [buildFinal, hf1, Option.some_bind, hmc, Option.some_bind, hkc,
      Option.some_bind, hrc, Option.some_bind] at h
    exact Option.noConfusion h
  · intro h
    rcases h with h | h | h
    · rw [buildFinal, mapStyles_none t25 h]; rfl
    · cases hms : mapStyles t25 ⟨t25.rows.map Prod.fst, []⟩ with
      | none => rw [buildFinal, hms]; rfl
      | some f1 =>
          rw [buildFinal, hms, Option.some_bind]
          have : momSel tmom = none := by simp [momSel, hasCol, h, lastOf]
          rw [this]; rfl
    · cases hms : mapStyles t25 ⟨t25.rows.map Prod.fst, []⟩ with
      | none => rw [buildFinal, hms]; rfl
      | some f1 =>
          rw [buildFinal, hms, Option.some_bind]
          cases hmc : momSel tmom with
          | none => rfl
          | some mc =>
              rw [Option.some_bind]
              have : mktSel tff5 = none := by simp [mktSel, hasCol, h]
              rw [this]; rfl

/-- C2 counterexample.  With `"Mkt-RF"`, `"RF"` and `"Hi PRIOR"` all
absent, the mapper does not fail with any `MissingRequiredColumn`: it
succeeds, taking Momentum from the last momentum column and computing
Market as first column + last column (2 + 5 = 7). -/
theorem C2_counterexample :
    hasCol T2ff5.columns "Mkt-RF" = false ∧ hasCol T2ff5.columns "RF" = false ∧
    hasCol T2mom.columns "Hi PRIOR" = false ∧
    buildFinal T2x25 T2mom T2ff5 = some F2 := by
  refine ⟨by decide, by decide, by decide, ?_⟩
  simp [buildFinal, mapStyles, style_map, pickStyle, firstPresent, hasCol,
    lookup, idxOf, findRow, colAt, setCol, momSel, mktSel, rfSel, lastOf,
    marketSeries, T2x25, T2mom, T2ff5, p0, F2, List.foldlM_cons]
  try norm_num

theorem firstPresent_none_of (cands cols : List String)
    (h : ∀ c ∈ cands, hasCol cols c = false) : firstPresent cands cols = none := by
  induction cands with
  | nil => rfl
  | cons c rest ih =>
      rw [firstPresent, h c (List.mem_cons_self c rest), if_neg (by simp)]
      exact ih (fun x hx => h x (List.mem_cons_of_mem c hx))

/-- C3 (amended).  For a style label none of whose candidate names is
present, the mapper does not omit the label and does not flag anything: it
silently substitutes the table's first column (provided the table has any
column at all). -/
theorem C3_silent_first_column_fallback (t : Tab) (cands : List String)
    (h1 : ∀ c ∈ cands, hasCol t.columns c = false) (h2 : t.columns ≠ []) :
    pickStyle t cands = some (colAt t 0) := by
  unfold pickStyle
  rw [firstPresent_none_of cands t.columns h1]
  rw [if_neg (fun hl => h2 (List.length_eq_zero.mp hl))]

/-- C3 witness: with neither `"BIG LoBM"` nor `"BIG Lo"` present, the
`"Large Growth"` pass returns the first column of the table. -/
theorem C3_witness : pickStyle T3B ["BIG LoBM", "BIG Lo"] = some (colAt T3B 0) :=
  C3_silent_first_column_fallback T3B ["BIG LoBM", "BIG Lo"] (by decide) (by decide)

/-- C3 counterexample.  With no `"Large Growth"` candidate present the
label is not omitted and carries the table's first column, and the whole
output frame is *equal* to the frame produced from a table whose first
column genuinely is `"BIG LoBM"` — the substitution is indistinguishable
from real data downstream. -/
theorem C3_counterexample :
    hasCol T3B.columns "BIG LoBM" = false ∧ hasCol T3B.columns "BIG Lo" = false ∧
    buildFinal T3B T3mom T3ff5 = some F3 ∧
    ("Large Growth", [some (9 : ℚ)]) ∈ F3.cols ∧
    buildFinal T3A T3mom T3ff5 = some F3 := by
  refine ⟨by decide, by decide, ?_, by simp [F3], ?_⟩ <;>
    { simp [buildFinal, mapStyles, style_map, pickStyle, firstPresent, hasCol,
        lookup, idxOf, findRow, colAt, setCol, momSel, mktSel, rfSel, lastOf,
        marketSeries, T3A, T3B, T3mom, T3ff5, p0, F3, List.foldlM_cons]
      try norm_num }

/-- C5 (amended).  The loader does not scan for keywords: it always skips
exactly the first 3 lines, whatever they contain, and treats the fourth
line as the header; on the spec's scenario (3 free-text lines, then
`"Date,Mkt-RF,SMB"`, then `"192701,5.0,-2.0"`) it therefore yields the
header at line index 3 and one row at 1927-01 with values scaled by
1/100. -/
theorem C5_fixed_skiprows :
    (∀ l1 l2 l3 rest, read_csv 3 (l1 :: l2 :: l3 :: rest) = read_csv 0 rest) ∧
    loadOne (Net.resp 200 linesOK) =
      some ⟨["Mkt-RF", "SMB"], [(⟨1927, 1⟩, [5 / 100, -2 / 100])]⟩ := by
  refine ⟨fun l1 l2 l3 rest => rfl, ?_⟩
  simp [loadOne, read_csv, linesOK, cleanTab, parseIndex, parsePeriod,
    parseCellsAll, parseCells, parseDec, parseUnsignedChars, digitsVal,
    splitFields, splitAux]
  try norm_num

/-- C5 counterexample.  On a table whose header (containing the keyword
`"Mkt-RF"` and a separator) is preceded by only 2 lines of free text, the
spec's detection finds the header at line index 2, but the loader, fixed
at 3 skipped lines, swallows the header, takes the data row as header and
returns a table with columns `["5.0", "-2.0"]` and no data rows — and no
`HeaderNotFound` failure occurs. -/
theorem C5_counterexample :
    spec_headerIdx ["Mkt-RF"] linesShift = some 2 ∧
    loadOne (Net.resp 200 linesShift) = some ⟨["5.0", "-2.0"], []⟩ := by
  constructor
  · simp [spec_headerIdx, headerLine, linesShift, splitFields, splitAux, hasCol]
  · simp [loadOne, read_csv, linesShift, cleanTab, parseIndex, parseCellsAll,
      splitFields, splitAux]

/-- C1 (amended).  The frame's working index is not an intersection: it is
`df_25`'s own index filtered by the start year (the mask computed from
`df_25` alone, applied positionally to the other tables). -/
theorem C1_index_is_masked_df25 (sy : Nat) (t25 tmom tff5 : Tab) (f : Frame)
    (h : fullPipeline sy t25 tmom tff5 = some f) :
    f.index = (t25.rows.filter (fun r => decide (sy ≤ r.1.year))).map Prod.fst := by
  simp only [fullPipeline] at h
  rw [applyMask_self, Option.some_bind] at h
  cases hb : applyMask (t25.rows.map (fun r => decide (sy ≤ r.1.year))) tmom with
  | none => rw [hb] at h; simp at h
  | some b =>
      rw [hb, Option.some_bind] at h
      cases hc : applyMask (t25.rows.map (fun r => decide (sy ≤ r.1.year))) tff5 with
      | none => rw [hc] at h; simp at h
      | some c =>
          rw [hc, Option.some_bind] at h
          have := (buildFinal_parts _ _ _ _ h).1
          simpa [stripCols] using this

/-- C1 witness: the amended index property at the concrete run. -/
theorem C1_witness :
    F1.index = (T1x25.rows.filter (fun r => decide (1900 ≤ r.1.year))).map Prod.fst :=
  C1_index_is_masked_df25 1900 T1x25 T1mom T1ff5 F1 (by
    simp [fullPipeline, applyMask, stripCols, trimStr, Char.isWhitespace,
      buildFinal, mapStyles, style_map, pickStyle, firstPresent, hasCol,
      lookup, idxOf, findRow, colAt, setCol, momSel, mktSel, rfSel, lastOf,
      marketSeries, T1x25, T1mom, T1ff5, F1, List.foldlM_cons]
    try norm_num)

/-- C1 counterexample.  On tables with distinct (equal-sized) period sets,
the pipeline's combined frame keeps `df_25`'s full filtered index
`[1927-01, 1927-02]`, not the intersection `[1927-02]`, and the Momentum
series is missing (NaN) at the retained period 1927-01 — so the index is
not the intersection and not every canonical series has a value for every
retained period. -/
theorem C1_counterexample :
    fullPipeline 1900 T1x25 T1mom T1ff5 = some F1 ∧
    spec_commonIndex T1x25 T1mom T1ff5 = [⟨1927, 2⟩] ∧
    F1.index ≠ spec_commonIndex T1x25 T1mom T1ff5 ∧
    ("Momentum", [none, some (3 : ℚ)]) ∈ F1.cols := by
  refine ⟨?_, by simp [spec_commonIndex, T1x25, T1mom, T1ff5, hasCol],
    by simp [F1, spec_commonIndex, T1x25, T1mom, T1ff5, hasCol], by simp [F1]⟩
  simp [fullPipeline, applyMask, stripCols, trimStr, Char.isWhitespace,
    buildFinal, mapStyles, style_map, pickStyle, firstPresent, hasCol,
    lookup, idxOf, findRow, colAt, setCol, momSel, mktSel, rfSel, lastOf,
    marketSeries, T1x25, T1mom, T1ff5, F1, List.foldlM_cons]
  try norm_num

theorem parseIndex_length : ∀ (l : List String) (ps : List Period),
    parseIndex l = some ps → ps.length = l.length := by
  intro l
  induction l with
  | nil =>
      intro ps h
      simp [parseIndex] at h
      simp [h.symm]
  | cons tok rest ih =>
      intro ps h
      unfold parseIndex at h
      cases hp : parsePeriod tok with
      | none => rw [hp] at h; simp at h
      | some p =>
          rw [hp, Option.some_bind] at h
          cases hr : parseIndex rest with
          | none => rw [hr] at h; simp at h
          | some ps2 =>
              rw [hr] at h
              simp only [Option.map_some', Option.some.injEq] at h
              subst h
              simp [ih ps2 hr]

theorem parseCellsAll_length : ∀ (l : List (List String)) (vs : List (List ℚ)),
    parseCellsAll l = some vs → vs.length = l.length := by
  intro l
  induction l with
  | nil =>
      intro vs h
      simp [parseCellsAll] at h
      simp [h.symm]
  | cons r rest ih =>
      intro vs h
      unfold parseCellsAll at h
      cases hp : parseCells r with
      | none => rw [hp] at h; simp at h
      | some qs =>
          rw [hp, Option.some_bind] at h
          cases hr : parseCellsAll rest with
          | none => rw [hr] at h; simp at h
          | some vs2 =>
              rw [hr] at h
              simp only [Option.map_some', Option.some.injEq] at h
              subst h
              simp [ih vs2 hr]

theorem parseIndex_none (l : List String) (tok : String) (hm : tok ∈ l)
    (hp : parsePeriod tok = none) : parseIndex l = none := by
  induction l with
  | nil => cases hm
  | cons a rest ih =>
      rcases List.mem_cons.mp hm with rfl | hm2
      · simp [parseIndex, hp]
      · cases hpa : parsePeriod a with
        | none => simp [parseIndex, hpa]
        | some p => simp [parseIndex, hpa, ih hm2]

/-- C4 (amended).  The row filter keeps exactly the rows whose index token
has 6 characters — numeric or not, unstripped — and the subsequent period
parse must then succeed on every kept token: a kept token that fails to
parse does not get dropped silently, it makes the whole table load fail. -/
theorem C4_filter_is_length_only :
    (∀ (t : RawTab) (tab : Tab), cleanTab t = some tab →
        tab.rows.length = (t.rows.filter (fun r => r.1.length = 6)).length ∧
        parseIndex ((t.rows.filter (fun r => r.1.length = 6)).map Prod.fst)
          = some (tab.rows.map Prod.fst)) ∧
    (∀ t : RawTab, (∃ r ∈ t.rows, r.1.length = 6 ∧ parsePeriod r.1 = none) →
        cleanTab t = none) := by
  constructor
  · intro t tab h
    simp only [cleanTab] at h
    cases hi : parseIndex ((t.rows.filter (fun r => r.1.length = 6)).map Prod.fst) with
    | none => rw [hi] at h; simp at h
    | some idx =>
        rw [hi, Option.some_bind] at h
        cases hv : parseCellsAll ((t.rows.filter (fun r => r.1.length = 6)).map Prod.snd) with
        | none => rw [hv] at h; simp at h
        | some vals =>
            rw [hv] at h
            simp only [Option.map_some', Option.some.injEq] at h
            subst h
            have hidx : idx.length = (t.rows.filter (fun r => r.1.length = 6)).length := by
              simpa using parseIndex_length _ _ hi
            have hval : vals.length = (t.rows.filter (fun r => r.1.length = 6)).length := by
              simpa using parseCellsAll_length _ _ hv
            constructor
            · simp [hidx, hval]
            · congr 1
              rw [List.map_fst_zip]
              simp [hidx, hval]
  · rintro t ⟨r, hr, h6, hp⟩
    simp only [cleanTab]
    rw [parseIndex_none _ r.1
      (List.mem_map.mpr ⟨r, List.mem_filter.mpr ⟨hr, by simp [h6]⟩, rfl⟩) hp]
    rfl

/-- C4 counterexample.  The token `"Annual"` has 6 characters but is not
numeric: the spec calls such a row non-conforming and requires it to be
dropped silently, yet the loader keeps it at the length-6 filter and the
period parse then fails, so the whole table load fails (`none`) instead of
yielding the table of the remaining conforming rows (which the same input
without that row does yield). -/
theorem C4_counterexample :
    ("Annual" : String).length = 6 ∧ spec_validRow "Annual" = false ∧
    cleanTab rawAnnual = none ∧
    cleanTab rawGood = some ⟨["A"], [(⟨1927, 1⟩, [5 / 100])]⟩ := by
  refine ⟨by decide, by decide, ?_, ?_⟩ <;>
    { simp [cleanTab, rawAnnual, rawGood, parseIndex, parsePeriod, parseCellsAll,
        parseCells, parseDec, parseUnsignedChars, digitsVal]
      try norm_num }

theorem ann_ret_eq_spec (s : List ℝ) (h : s.length ≠ 0) :
    ann_ret s = some (spec_cagr s) := by
  unfold ann_ret spec_cagr tot_ret spec_totalReturn
  rw [if_neg h]
  rw [show (1 : ℝ) + ((s.map fun r => 1 + r).prod - 1) = (s.map fun r => 1 + r).prod
    by ring]

/-- C6 (amended).  For every series with at least one period, the code's
CAGR equals the spec's formula `(1 + total_return) ^ (12 / n) - 1` with
`total_return` the product of `(1 + r)` minus 1; for a series with zero
periods the code raises `ZeroDivisionError` instead of returning 0 (see
the counterexample). -/
theorem C6_cagr_formula (s : List ℝ) (h : s ≠ []) :
    ann_ret s = some ((1 + spec_totalReturn s) ^ ((12 : ℝ) / (s.length : ℝ)) - 1) := by
  have hlen : s.length ≠ 0 := by simpa using h
  rw [ann_ret_eq_spec s hlen]
  rfl

/-- C6 witness: the amended formula at a one-element series. -/
theorem C6_witness :
    ann_ret [(0 : ℝ)] =
      some ((1 + spec_totalReturn [(0 : ℝ)]) ^
        ((12 : ℝ) / (([(0 : ℝ)] : List ℝ).length : ℝ)) - 1) :=
  C6_cagr_formula [(0 : ℝ)] (by simp)

/-- C6 counterexample.  On a series with zero periods the computation
`12 / len(s)` raises (`none`); CAGR is not defined as 0 there. -/
theorem C6_counterexample :
    ann_ret ([] : List ℝ) = none ∧ ann_ret ([] : List ℝ) ≠ some 0 := by
  constructor <;> simp [ann_ret]

theorem ann_vol_nonneg (s : List ℝ) : 0 ≤ ann_vol s :=
  mul_nonneg (Real.sqrt_nonneg _) (Real.sqrt_nonneg _)

theorem seriesMean_sc12 : seriesMean sc12 = 1 / 100 := by
  simp [seriesMean, sc12, List.sum_replicate]
  norm_num

theorem ann_vol_sc12 : ann_vol sc12 = 0 := by
  rw [ann_vol, seriesStd]
  rw [show (sc12.map fun x => (x - seriesMean sc12) ^ 2) = List.replicate 12 0 by
    rw [seriesMean_sc12]; simp [sc12]]
  simp

/-- C7.  The Sharpe ratio of every nonempty series is CAGR divided by
annualized volatility, and 0 when the volatility is 0 (no
division-by-zero); and on the scenario of 12 monthly returns of 1% the
total return is `1.01 ^ 12 - 1`, CAGR equals it exactly (exponent
`12/12`), the volatility is 0 and the Sharpe ratio is 0. -/
theorem C7_sharpe_policy :
    (∀ s : List ℝ, s ≠ [] →
        sharpe s = some (spec_sharpe (spec_cagr s) (ann_vol s))) ∧
    spec_totalReturn sc12 = (101 / 100 : ℝ) ^ 12 - 1 ∧
    ann_ret sc12 = some ((101 / 100 : ℝ) ^ 12 - 1) ∧
    ann_vol sc12 = 0 ∧
    sharpe sc12 = some 0 := by
  have hgen : ∀ s : List ℝ, s ≠ [] →
      sharpe s = some (spec_sharpe (spec_cagr s) (ann_vol s)) := by
    intro s h
    have hlen : s.length ≠ 0 := by simpa using h
    rw [sharpe, ann_ret_eq_spec s hlen, Option.map_some']
    congr 1
    unfold spec_sharpe
    rcases (ann_vol_nonneg s).lt_or_eq with hv | hv
    · rw [if_pos hv, if_neg hv.ne']
    · rw [if_neg (by rw [← hv]; exact lt_irrefl 0), if_pos hv.symm]
  have htot : spec_totalReturn sc12 = (101 / 100 : ℝ) ^ 12 - 1 := by
    simp [spec_totalReturn, sc12, List.prod_replicate]
    norm_num
  have hlen12 : (sc12.length : ℝ) = 12 := by simp [sc12]
  have hret : ann_ret sc12 = some ((101 / 100 : ℝ) ^ 12 - 1) := by
    rw [ann_ret_eq_spec sc12 (by simp [sc12]), spec_cagr, htot, hlen12]
    norm_num
  have hsharpe : sharpe sc12 = some 0 := by
    rw [sharpe, hret, Option.map_some', ann_vol_sc12]
    simp
  exact ⟨hgen, htot, hret, ann_vol_sc12, hsharpe⟩

theorem foldl_min_le (l : List ℚ) : ∀ a : ℚ, l.foldl min a ≤ a := by
  induction l with
  | nil => intro a; simp
  | cons b l ih =>
      intro a
      rw [List.foldl_cons]
      exact le_trans (ih (min a b)) (min_le_left a b)

theorem foldl_min_le_mem (l : List ℚ) : ∀ (a x : ℚ), x ∈ l → l.foldl min a ≤ x := by
  induction l with
  | nil => intro a x hx; cases hx
  | cons b l ih =>
      intro a x hx
      rw [List.foldl_cons]
      rcases List.mem_cons.mp hx with rfl | hx2
      · exact le_trans (foldl_min_le l (min a x)) (min_le_right a x)
      · exact ih (min a b) x hx2

theorem foldl_min_replicate_zero : ∀ n : Nat, (List.replicate n (0 : ℚ)).foldl min 0 = 0 := by
  intro n
  induction n with
  | zero => rfl
  | succ k ih => rw [List.replicate_succ, List.foldl_cons, min_self]; exact ih

theorem dd_nonneg_iff_chain (l : List ℚ) :
    ∀ m : ℚ, 0 < m → (∀ x ∈ l, 0 < x) →
      ((∀ b ∈ List.zipWith (fun x mm => x / mm - 1) l (cummaxAux m l), 0 ≤ b) ↔
        List.Chain (fun p q => p ≤ q) m l) := by
  induction l with
  | nil => intro m hm hl; simp
  | cons a l ih =>
      intro m hm hl
      have ha : 0 < a := hl a (List.mem_cons_self a l)
      have hmax : 0 < max m a := lt_max_of_lt_left hm
      rw [cummaxAux, List.zipWith_cons_cons, List.chain_cons]
      constructor
      · intro hb
        have h1 : 0 ≤ a / max m a - 1 := hb _ (List.mem_cons_self _ _)
        have hma : max m a ≤ a := (one_le_div hmax).mp (by linarith)
        have hm_le_a : m ≤ a := le_trans (le_max_left m a) hma
        have hmx : max m a = a := max_eq_right hm_le_a
        refine ⟨hm_le_a, ?_⟩
        rw [hmx] at hb
        exact (ih a ha (fun x hx => hl x (List.mem_cons_of_mem _ hx))).mp
          (fun b hbm => hb b (List.mem_cons_of_mem _ hbm))
      · rintro ⟨hma, hchain⟩
        have hmx : max m a = a := max_eq_right hma
        rw [hmx]
        intro b hb
        rcases List.mem_cons.mp hb with rfl | hb2
        · rw [div_self (ne_of_gt ha)]; norm_num
        · exact (ih a ha (fun x hx => hl x (List.mem_cons_of_mem _ hx))).mpr
            hchain b hb2

theorem dd_zero_of_chain (l : List ℚ) :
    ∀ m : ℚ, 0 < m → (∀ x ∈ l, 0 < x) → List.Chain (fun p q => p ≤ q) m l →
      List.zipWith (fun x mm => x / mm - 1) l (cummaxAux m l)
        = List.replicate l.length 0 := by
  induction l with
  | nil => intro m hm hl hc; rfl
  | cons a l ih =>
      intro m hm hl hc
      have ha : 0 < a := hl a (List.mem_cons_self a l)
      rw [List.chain_cons] at hc
      obtain ⟨hma, hchain⟩ := hc
      have hmx : max m a = a := max_eq_right hma
      rw [cummaxAux, List.zipWith_cons_cons, hmx, div_self (ne_of_gt ha)]
      rw [List.length_cons, List.replicate_succ]
      rw [ih a ha (fun x hx => hl x (List.mem_cons_of_mem _ hx)) hchain]
      norm_num

theorem fmin_nan_left (v : FVal) : fmin FVal.nan v = v := by
  cases v <;> simp [fmin]

theorem fmin_fin_nan (a : ℚ) : fmin (FVal.fin a) FVal.nan = FVal.fin a := rfl

theorem fmin_fin_fin (a b : ℚ) : fmin (FVal.fin a) (FVal.fin b) = FVal.fin (min a b) := rfl

theorem foldl_fmin_fin (l : List FVal) :
    ∀ d : ℚ, (∀ v ∈ l, ∀ b : Bool, v ≠ FVal.inf b) →
      ∃ e, List.foldl fmin (FVal.fin d) l = FVal.fin e ∧ e ≤ d := by
  induction l with
  | nil => intro d _; exact ⟨d, rfl, le_refl d⟩
  | cons v l ih =>
      intro d hv
      cases v with
      | nan =>
          rw [List.foldl_cons, fmin_fin_nan]
          exact ih d (fun w hw => hv w (List.mem_cons_of_mem _ hw))
      | inf b => exact absurd rfl (hv _ (List.mem_cons_self _ _) b)
      | fin q =>
          rw [List.foldl_cons, fmin_fin_fin]
          obtain ⟨e, he, hle⟩ := ih (min d q) (fun w hw => hv w (List.mem_cons_of_mem _ hw))
          exact ⟨e, he, le_trans hle (min_le_left d q)⟩

theorem foldl_fmin_nan : ∀ l : List FVal, (∀ v ∈ l, v = FVal.nan) →
    List.foldl fmin FVal.nan l = FVal.nan := by
  intro l
  induction l with
  | nil => intro _; rfl
  | cons v l ih =>
      intro h
      rw [List.foldl_cons, h v (List.mem_cons_self _ _), fmin_nan_left]
      exact ih (fun w hw => h w (List.mem_cons_of_mem _ hw))

theorem foldl_fmin_map_fin (qs : List ℚ) :
    ∀ d : ℚ, List.foldl fmin (FVal.fin d) (qs.map FVal.fin) = FVal.fin (qs.foldl min d) := by
  induction qs with
  | nil => intro d; rfl
  | cons q qs ih =>
      intro d
      rw [List.map_cons, List.foldl_cons, List.foldl_cons, fmin_fin_fin]
      exact ih (min d q)

theorem dd_no_inf (s2 : List ℚ) :
    ∀ acc m : ℚ, (m = 0 → acc = 0) →
      ∀ v ∈ List.zipWith (fun x mm => fsub1 (fdiv x mm)) (cumprodAux acc s2)
          (cummaxAux m (cumprodAux acc s2)),
        ∀ b : Bool, v ≠ FVal.inf b := by
  induction s2 with
  | nil => intro acc m _ v hv; simp [cumprodAux] at hv
  | cons r s2 ih =>
      intro acc m hm v hv
      rw [cumprodAux, cummaxAux, List.zipWith_cons_cons] at hv
      have hstep : max m (acc * r) = 0 → acc * r = 0 := by
        intro hz
        rcases max_eq_iff.mp hz with ⟨hm0, _⟩ | ⟨hx0, _⟩
        · rw [hm hm0, zero_mul]
        · exact hx0
      rcases List.mem_cons.mp hv with rfl | hv2
      · intro b
        by_cases hz : max m (acc * r) = 0
        · rw [hz, hstep hz]
          simp [fdiv, fsub1]
        · simp [fdiv, hz, fsub1]
      · exact ih (acc * r) (max m (acc * r)) hstep v hv2

theorem dd_all_nan (s2 : List ℚ) :
    ∀ acc m : ℚ, acc = 0 → m = 0 →
      ∀ v ∈ List.zipWith (fun x mm => fsub1 (fdiv x mm)) (cumprodAux acc s2)
          (cummaxAux m (cumprodAux acc s2)),
        v = FVal.nan := by
  induction s2 with
  | nil => intro acc m _ _ v hv; simp [cumprodAux] at hv
  | cons r s2 ih =>
      intro acc m hacc hm v hv
      subst hacc
      subst hm
      rw [cumprodAux, cummaxAux, List.zipWith_cons_cons] at hv
      rcases List.mem_cons.mp hv with rfl | hv2
      · simp [zero_mul, fdiv, fsub1]
      · exact ih (0 * r) (max 0 (0 * r)) (zero_mul r)
          (by rw [zero_mul]; exact max_self 0) v hv2

theorem dd_fin_of_pos (l : List ℚ) :
    ∀ m : ℚ, 0 < m → (∀ x ∈ l, 0 < x) →
      List.zipWith (fun x mm => fsub1 (fdiv x mm)) l (cummaxAux m l)
        = (List.zipWith (fun x mm => x / mm - 1) l (cummaxAux m l)).map FVal.fin := by
  induction l with
  | nil => intro m _ _; rfl
  | cons a l ih =>
      intro m hm hl
      have hmax : 0 < max m a := lt_max_of_lt_left hm
      rw [cummaxAux, List.zipWith_cons_cons, List.zipWith_cons_cons, List.map_cons]
      rw [ih (max m a) hmax (fun x hx => hl x (List.mem_cons_of_mem _ hx))]
      rw [show fdiv a (max m a) = FVal.fin (a / max m a) from by
        simp [fdiv, hmax.ne']]
      rfl

/-- C8 (amended).  For every nonempty series, the max drawdown is ≤ 0
whenever it is a number at all: when the first return is exactly −1 the
wealth path is identically 0, every drawdown entry is the NaN `0/0` and
the minimum is NaN; when `1 + r₁ ≠ 0` the drawdown is a defined number
≤ 0; and when the cumulative wealth path is everywhere positive it equals
0 exactly when the wealth path is monotonically non-decreasing.  (Without
the positivity proviso the "exactly when" fails, see the
counterexample.) -/
theorem C8_maxdd_nonpos (r : ℚ) (s2 : List ℚ) :
    (r = -1 → max_dd (r :: s2) = FVal.nan) ∧
    (1 + r ≠ 0 → ∃ d, max_dd (r :: s2) = FVal.fin d ∧ d ≤ 0) ∧
    ((∀ x ∈ cumprod ((r :: s2).map (fun q => q + 1)), 0 < x) →
      (max_dd (r :: s2) = FVal.fin 0 ↔
        List.Chain' (fun p q => p ≤ q) (cumprod ((r :: s2).map (fun q => q + 1))))) := by
  have hc : cumprod ((r :: s2).map (fun q => q + 1))
      = (1 * (r + 1)) :: cumprodAux (1 * (r + 1)) (s2.map (fun q => q + 1)) := by
    simp only [List.map_cons, cumprod, cumprodAux]
  refine ⟨?_, ?_, ?_⟩
  · intro hr
    subst hr
    have h0 : (1 : ℚ) * (-1 + 1) = 0 := by norm_num
    simp only [max_dd]
    rw [hc, h0]
    simp only [cummax, List.zipWith_cons_cons, seriesMinF, List.foldl_cons]
    rw [show fsub1 (fdiv (0 : ℚ) 0) = FVal.nan from by simp [fdiv, fsub1]]
    rw [fmin_nan_left]
    exact foldl_fmin_nan _ (dd_all_nan (s2.map (fun q => q + 1)) 0 0 rfl rfl)
  · intro hne
    have ha2 : r + 1 ≠ 0 := by
      intro h0
      exact hne (by linarith)
    simp only [max_dd]
    rw [hc]
    simp only [cummax, List.zipWith_cons_cons, seriesMinF, List.foldl_cons]
    rw [show fsub1 (fdiv (1 * (r + 1)) (1 * (r + 1))) = FVal.fin 0 from by
      simp [fdiv, ha2, div_self ha2, fsub1]]
    rw [fmin_nan_left]
    exact foldl_fmin_fin _ 0
      (dd_no_inf (s2.map (fun q => q + 1)) (1 * (r + 1)) (1 * (r + 1)) (fun h => h))
  · intro hp
    rw [hc] at hp
    have ha : 0 < 1 * (r + 1) := hp _ (List.mem_cons_self _ _)
    have hl : ∀ x ∈ cumprodAux (1 * (r + 1)) (s2.map (fun q => q + 1)), 0 < x :=
      fun x hx => hp x (List.mem_cons_of_mem _ hx)
    have ha2 : r + 1 ≠ 0 := by
      have := ha
      rw [one_mul] at this
      exact this.ne'
    simp only [max_dd]
    rw [hc]
    simp only [cummax, List.zipWith_cons_cons, seriesMinF, List.foldl_cons]
    rw [show fsub1 (fdiv (1 * (r + 1)) (1 * (r + 1))) = FVal.fin 0 from by
      simp [fdiv, ha2, div_self ha2, fsub1]]
    rw [fmin_nan_left, dd_fin_of_pos _ _ ha hl, foldl_fmin_map_fin]
    have hch : List.Chain' (fun p q : ℚ => p ≤ q)
        ((1 * (r + 1)) :: cumprodAux (1 * (r + 1)) (s2.map (fun q => q + 1)))
        ↔ List.Chain (fun p q : ℚ => p ≤ q) (1 * (r + 1))
            (cumprodAux (1 * (r + 1)) (s2.map (fun q => q + 1))) := Iff.rfl
    rw [hch]
    constructor
    · intro h
      have h0 : (List.zipWith (fun x mm => x / mm - 1)
          (cumprodAux (1 * (r + 1)) (s2.map (fun q => q + 1)))
          (cummaxAux (1 * (r + 1))
            (cumprodAux (1 * (r + 1)) (s2.map (fun q => q + 1))))).foldl min 0 = 0 := by
        simpa using h
      refine (dd_nonneg_iff_chain _ _ ha hl).mp ?_
      intro b hb
      have := foldl_min_le_mem _ 0 b hb
      rw [h0] at this
      exact this
    · intro hchain
      rw [dd_zero_of_chain _ _ ha hl hchain]
      rw [foldl_min_replicate_zero]

/-- C8 witness: the amended statement at a concrete three-month series
whose wealth path stays positive. -/
theorem C8_witness :
    ((1 : ℚ) / 10 = -1 → max_dd [(1 : ℚ) / 10, -(1 / 2), 1 / 10] = FVal.nan) ∧
    (1 + (1 : ℚ) / 10 ≠ 0 →
      ∃ d, max_dd [(1 : ℚ) / 10, -(1 / 2), 1 / 10] = FVal.fin d ∧ d ≤ 0) ∧
    ((∀ x ∈ cumprod (([(1 : ℚ) / 10, -(1 / 2), 1 / 10] : List ℚ).map (fun q => q + 1)),
        0 < x) →
      (max_dd [(1 : ℚ) / 10, -(1 / 2), 1 / 10] = FVal.fin 0 ↔
        List.Chain' (fun p q => p ≤ q)
          (cumprod (([(1 : ℚ) / 10, -(1 / 2), 1 / 10] : List ℚ).map (fun q => q + 1))))) :=
  C8_maxdd_nonpos ((1 : ℚ) / 10) [-(1 / 2), 1 / 10]

/-- C8 counterexample.  For the series `[-3/2, 1/5]` the wealth path is
`[-1/2, -3/5]`, which is strictly decreasing, yet the computed max
drawdown is 0 — so "equals 0 exactly when the wealth path is monotonically
non-decreasing" fails as stated (the wealth path here is negative).  And
for the one-month series `[-1]` the wealth path is `[0]`, the single
drawdown entry is the NaN `0/0` and the minimum is NaN — so "always ≤ 0"
also fails as stated. -/
theorem C8_counterexample :
    max_dd [-(3 / 2 : ℚ), 1 / 5] = FVal.fin 0 ∧
      ¬ List.Chain' (fun p q => p ≤ q)
          (cumprod ([-(3 / 2 : ℚ), 1 / 5].map (fun r => r + 1))) ∧
      max_dd [(-1 : ℚ)] = FVal.nan := by
  refine ⟨?_, ?_, ?_⟩
  · norm_num [max_dd, cumprod, cumprodAux, cummax, cummaxAux, seriesMinF,
      fmin, fdiv, fsub1, max_def, min_def]
  · norm_num [cumprod, cumprodAux, List.chain'_cons, List.chain'_singleton]
  · norm_num [max_dd, cumprod, cumprodAux, cummax, cummaxAux, seriesMinF,
      fmin, fdiv, fsub1]

end FF
